import Mathlib

/-!
Verification development for the FAIR-workflow-platform argo-connector.

This file gives a shallow embedding, in Lean 4, of the artifact
discovery/streaming pipeline (`src/app/argo.py`) and the transactional
object-graph assembly (`src/app/cordra.py`), and proves (or refutes)
the specification claims about them.

Conventions of the embedding:
 * Python strings are Lean `String`s; where character-level reasoning is
   needed (path separator handling) they are `List Char`.
 * Python `dict`s are insertion-ordered association lists.
 * A `KeyError`-style failure of a Python expression is an `Except`
   error value; functions that can raise return `Except Err α`.
 * External collaborators (the Cordra repository, the system clock and
   `datetime.strptime`) are parameters of the model: repository calls
   draw fresh numeric identifiers from a counter and can be made to
   fail at any call site through a fault oracle `failAt`.
-/

namespace ArgoConnector

/-- Python `needle in hay` on strings (substring test): the needle is a
prefix of some suffix of the haystack. -/
def strContains (hay needle : String) : Bool :=
  (List.range (hay.data.length + 1)).any fun i =>
    needle.data.isPrefixOf (hay.data.drop i)

/-- Python `s.startswith (p)` on strings. -/
def strStartsWith (s p : String) : Bool :=
  p.data.isPrefixOf s.data

/-! ### ArtifactFilter: `argo.get_artifact_list` (src/app/argo.py lines 53-85) -/

/-- The `artifactGC` block of an artifact; `strategy` is `none` when the
`"strategy"` key is absent from the block. -/
structure GCBlock where
  strategy : Option String
deriving DecidableEq, Repr

/-- One artifact of a node's outputs.  Every field the source reads by
direct dict access is optional, `none` modelling the key's absence:
`name` models `artifact["name"]`, `path` the reported path, `s3key`
`artifact["s3"]["key"]` (`none` = the `"s3"`/`"key"` chain is not fully
present); `deleted` is the optional `"deleted"` flag and `artifactGC`
the optional garbage-collection block. -/
structure Artifact where
  name : Option String
  path : Option String
  s3key : Option String
  deleted : Option Bool
  artifactGC : Option GCBlock
deriving DecidableEq, Repr

/-- The `outputs` block of a node; `artifacts` is `none` when the node's
outputs carry no `"artifacts"` key. -/
structure NodeOutputs where
  artifacts : Option (List Artifact)
deriving DecidableEq, Repr

/-- One node of the workflow status tree; `outputs` is `none` when the
node carries no `"outputs"` key. -/
structure ArgoNode where
  outputs : Option NodeOutputs
deriving DecidableEq, Repr

/-- The parts of the workflow status response that `get_artifact_list`
reads: `wfl["metadata"]["name"]` and `wfl["status"]["nodes"]`, the
latter as an insertion-ordered name-to-node mapping. -/
structure ArgoWorkflow where
  metadataName : String
  nodes : List (String × ArgoNode)
deriving DecidableEq, Repr

/-- One iteration of the inner loop of `get_artifact_list` for a single
artifact.  Returns `some` triple when the artifact is kept, `none` when
it is skipped, and an error when a Python `KeyError` would be raised.
The order of the accesses follows the source exactly: key-substring
test, `deleted` flag, `artifactGC` strategy, then the `"name"` field
(read by direct access for the `main-logs` comparison), and the
`"path"` field for artifacts other than `main-logs`. -/
def getArtifactOne (wflName nodeName : String) (a : Artifact) :
    Except String (Option (String × String × String)) :=
  match a.s3key with
  | none => .error "KeyError: s3.key"
  | some key =>
    if !strContains key wflName then .ok none
    else if a.deleted.getD false then .ok none
    else
      let gcCheck : Except String Bool :=
        match a.artifactGC with
        | none => .ok false
        | some gc =>
          match gc.strategy with
          | none => .error "KeyError: artifactGC.strategy"
          | some s => .ok (s != "Never")
      match gcCheck with
      | .error e => .error e
      | .ok true => .ok none
      | .ok false =>
        match a.name with
        | none => .error "KeyError: name"
        | some nm =>
          if nm == "main-logs" then .ok (some (nodeName, nm, "main.log"))
          else
            match a.path with
            | none => .error "KeyError: path"
            | some p => .ok (some (nodeName, nm, p))

/-- The inner artifact loop of `get_artifact_list` over one node's
artifact list, in order. -/
def processArtifacts (wflName nodeName : String) :
    List Artifact → Except String (List (String × String × String))
  | [] => .ok []
  | a :: rest =>
    match getArtifactOne wflName nodeName a with
    | .error e => .error e
    | .ok o =>
      match processArtifacts wflName nodeName rest with
      | .error e => .error e
      | .ok l =>
        match o with
        | some t => .ok (t :: l)
        | none => .ok l

/-- The outer node loop of `get_artifact_list`: nodes without an
`outputs` block or without an `artifacts` list are skipped. -/
def processNodes (wflName : String) :
    List (String × ArgoNode) → Except String (List (String × String × String))
  | [] => .ok []
  | (nodeName, node) :: rest =>
    match node.outputs with
    | none => processNodes wflName rest
    | some outs =>
      match outs.artifacts with
      | none => processNodes wflName rest
      | some arts =>
        match processArtifacts wflName nodeName arts with
        | .error e => .error e
        | .ok l1 =>
          match processNodes wflName rest with
          | .error e => .error e
          | .ok l2 => .ok (l1 ++ l2)

/-- `argo.get_artifact_list`: returns the list of
`(node_name, artifact_name, path)` triples, or a `KeyError` when one
of the artifact field accesses of the source would raise. -/
def get_artifact_list (wfl : ArgoWorkflow) :
    Except String (List (String × String × String)) :=
  processNodes wfl.metadataName wfl.nodes

/-- Specification-side filter predicate: the three inclusion conditions
of the spec (storage key contains the workflow name, not deleted,
garbage-collection strategy - when present - equals `"Never"`).  Field
defaults only matter for malformed artifacts, which well-formedness
hypotheses exclude. -/
def artifactMatches (wflName : String) (a : Artifact) : Bool :=
  strContains (a.s3key.getD "") wflName
    && !(a.deleted.getD false)
    && (match a.artifactGC with
        | some gc => gc.strategy.getD "" == "Never"
        | none => true)

/-- Specification-side triple for a kept artifact: `main-logs` is
re-pathed to `main.log`, every other artifact uses its reported path. -/
def tripleOf (nodeName : String) (a : Artifact) : String × String × String :=
  if a.name.getD "" == "main-logs" then (nodeName, a.name.getD "", "main.log")
  else (nodeName, a.name.getD "", a.path.getD "")

/-- Specification-side result of artifact discovery: per node (in tree
order), the artifacts satisfying `artifactMatches`, as triples, in
artifact order; nodes without outputs/artifacts contribute nothing. -/
def specArtifactList (wfl : ArgoWorkflow) : List (String × String × String) :=
  wfl.nodes.flatMap fun p =>
    (((p.2.outputs.bind NodeOutputs.artifacts).getD []).filter
      (artifactMatches wfl.metadataName)).map (tripleOf p.1)

/-- An artifact is well-formed when every field the source may read on
it is present: the storage key, a strategy inside any `artifactGC`
block, the name, and the reported path unless the artifact is
`main-logs`. -/
def artifactWF (a : Artifact) : Bool :=
  a.s3key.isSome
    && a.name.isSome
    && (match a.artifactGC with
        | some gc => gc.strategy.isSome
        | none => true)
    && (a.name.getD "" == "main-logs" || a.path.isSome)

/-- A status tree is well-formed when every artifact of every node is. -/
def wflWF (wfl : ArgoWorkflow) : Bool :=
  wfl.nodes.all fun p =>
    ((p.2.outputs.bind NodeOutputs.artifacts).getD []).all artifactWF

/-- Artifact with a missing `"s3"` block for the C2 counterexample. -/
def artNoKey : Artifact :=
  { name := some "out", path := some "/tmp/out.txt", s3key := none,
    deleted := none, artifactGC := none }

/-- Concrete status tree for the C2 counterexample: one node, one
artifact whose `"s3"` block (and hence storage key) is missing. -/
def wflMissingKey : ArgoWorkflow :=
  { metadataName := "wf-1",
    nodes := [("node-a", { outputs := some { artifacts := some [artNoKey] } })] }

/-- A kept artifact of node `A` of the witness tree. -/
def artKept : Artifact :=
  { name := some "result", path := some "/out/data.csv",
    s3key := some "bucket/wf-2/result", deleted := none, artifactGC := none }

/-- A garbage-collected artifact of node `B` of the witness tree. -/
def artGCed : Artifact :=
  { name := some "cache", path := some "/out/cache.bin",
    s3key := some "bucket/wf-2/cache", deleted := none,
    artifactGC := some { strategy := some "OnWorkflowCompletion" } }

/-- Concrete well-formed status tree used by witnesses: node `A` holds a
kept artifact, node `B` an artifact garbage-collected on completion. -/
def wflTwoNodes : ArgoWorkflow :=
  { metadataName := "wf-2",
    nodes :=
      [("A", { outputs := some { artifacts := some [artKept] } }),
       ("B", { outputs := some { artifacts := some [artGCed] } })] }

/-! ### WorkflowReconstructor: `argo.reconstruct_workflow` (src/app/argo.py lines 38-50)

Python dicts are insertion-ordered association lists over an abstract
value type `V`.  The source builds `dict(kind="Workflow", spec=wfl["spec"])`,
which *aliases* the input's spec mapping: every later in-place write and
the final `del` act on the one shared object.  The embedding makes the
shared object explicit by returning, next to the document, the state of
the input after the call (and also on the error path, where the merge
may already have happened). -/

/-- In-place Python dict assignment `d[k] = v`: overwrite in place when
the key exists (insertion order kept), append otherwise. -/
def dictSet {V : Type} (d : List (String × V)) (k : String) (v : V) :
    List (String × V) :=
  if d.any (fun p => p.1 == k) then
    d.map (fun p => if p.1 == k then (k, v) else p)
  else d ++ [(k, v)]

/-- Python `k in d` on dicts. -/
def dictHasKey {V : Type} (d : List (String × V)) (k : String) : Bool :=
  d.any (fun p => p.1 == k)

/-- The merge loop `for key in templateSpec: spec[key] = templateSpec[key]`:
every stored-template entry written into the spec, template values
overriding same-named spec fields. -/
def mergeInto {V : Type} (spec tmpl : List (String × V)) : List (String × V) :=
  tmpl.foldl (fun acc p => dictSet acc p.1 p.2) spec

/-- Python `del d[k]` after a successful key check: drop the key. -/
def dictDelKey {V : Type} (d : List (String × V)) (k : String) :
    List (String × V) :=
  d.filter (fun p => p.1 != k)

/-- The reconstructed document `{kind: "Workflow", spec: ...}`. -/
structure RDoc (V : Type) where
  kind : String
  spec : List (String × V)
deriving DecidableEq, Repr

/-- The parts of the status response `reconstruct_workflow` touches:
`wfl["spec"]` (`none` = key absent) and
`wfl["status"]["storedWorkflowTemplateSpec"]` (`none` = `"status"`
absent, `some none` = `"storedWorkflowTemplateSpec"` absent). -/
structure WflR (V : Type) where
  spec : Option (List (String × V))
  statusTemplateSpec : Option (Option (List (String × V)))
deriving DecidableEq, Repr

/-- `argo.reconstruct_workflow`.  On success, returns the document and
the input as left behind by the call (its spec is the same object as
the document's spec).  On a `KeyError`, returns the error string and the
input as left behind at the raise point: in particular when the merged
spec lacks `"workflowTemplateRef"`, the merge has already mutated the
input when `del` raises. -/
def reconstruct_workflow {V : Type} (wfl : WflR V) :
    Except (String × WflR V) (RDoc V × WflR V) :=
  match wfl.spec with
  | none => .error ("KeyError: spec", wfl)
  | some spec =>
    match wfl.statusTemplateSpec with
    | none => .error ("KeyError: status", wfl)
    | some none => .error ("KeyError: storedWorkflowTemplateSpec", wfl)
    | some (some tmpl) =>
      if dictHasKey (mergeInto spec tmpl) "workflowTemplateRef" then
        .ok ({ kind := "Workflow",
               spec := dictDelKey (mergeInto spec tmpl) "workflowTemplateRef" },
             { wfl with
               spec := some (dictDelKey (mergeInto spec tmpl) "workflowTemplateRef") })
      else
        .error ("KeyError: workflowTemplateRef",
                { wfl with spec := some (mergeInto spec tmpl) })

/-- Concrete input for the C4 counterexample (values are `Nat`): the
original spec carries a template reference and one own field, the stored
template adds one field. -/
def wflAliased : WflR Nat :=
  { spec := some [("workflowTemplateRef", 0), ("replicas", 1)],
    statusTemplateSpec := some (some [("entrypoint", 2)]) }

/-- Concrete input for the C5 counterexample: both required keys are
present but neither the spec nor the stored template carries a
`workflowTemplateRef` entry. -/
def wflNoRef : WflR Nat :=
  { spec := some [("replicas", 1)],
    statusTemplateSpec := some (some [("entrypoint", 2)]) }

/-! ### ArtifactStreamer: `argo._recursive_artifact_reader`
(src/app/argo.py lines 88-114)

The server-side state behind an artifact URL is a finite directory
tree.  A `file` answers with a content-disposition header and a body; a
`dir` answers with an HTML listing whose anchors are the parent link
`".."` followed by one anchor per entry (an anchor text is both the
`href` and the name joined to the relative path, as in the source).
The parent anchor points outside the tree below the current URL, so
the tree's own files are those reachable without following a `".."`
anchor. -/

/-- A served directory tree: a downloadable file with its content, or a
directory listing of named anchors (which may include parent links). -/
inductive Entry where
  | file : String → Entry
  | dir : List (String × Entry) → Entry

/-- `urllib.parse.urljoin(url + "/", href)` for the relative hrefs a
listing serves: append the href as a new segment. -/
def urlJoin (url href : String) : String :=
  url ++ "/" ++ href

/-- `os.path.join(path, href)` for the hrefs a listing serves (no
leading separator): append as a new segment. -/
def pathAppend (path href : String) : String :=
  if path == "" then href else path ++ "/" ++ href

mutual
/-- `argo._recursive_artifact_reader` over a served tree: a file is
yielded once with the current relative path; a directory listing is
walked anchor by anchor, the parent link `".."` is skipped, and the
reader recurses into each anchor with the href resolved against the
current URL and the anchor text appended to the relative path. -/
def recursive_artifact_reader : Entry → String → String → List (String × String)
  | .file c, _, path => [(path, c)]
  | .dir links, url, path => readLinks links url path

/-- The anchor loop of `recursive_artifact_reader`. -/
def readLinks : List (String × Entry) → String → String → List (String × String)
  | [], _, _ => []
  | (href, e) :: rest, url, path =>
    (if href == ".." then []
     else recursive_artifact_reader e (urlJoin url href) (pathAppend path href))
      ++ readLinks rest url path
end

mutual
/-- Specification-side flattening: the leaf files of the tree (files
reachable without following a parent anchor), each with the relative
path obtained by joining the anchor texts along its route. -/
def leavesOf : Entry → String → List (String × String)
  | .file c, path => [(path, c)]
  | .dir links, path => leavesOfLinks links path

/-- `leavesOf` over a listing. -/
def leavesOfLinks : List (String × Entry) → String → List (String × String)
  | [], _ => []
  | (href, e) :: rest, path =>
    (if href == ".." then [] else leavesOf e (pathAppend path href))
      ++ leavesOfLinks rest path
end

mutual
/-- The number of leaf files of the tree (parent anchors and everything
behind them are not part of the tree). -/
def countLeaves : Entry → Nat
  | .file _ => 1
  | .dir links => countLeavesLinks links

/-- `countLeaves` over a listing. -/
def countLeavesLinks : List (String × Entry) → Nat
  | [] => 0
  | (href, e) :: rest =>
    (if href == ".." then 0 else countLeaves e) + countLeavesLinks rest
end

/-! ### `argo.artifact_reader` path normalization
(src/app/argo.py lines 120-127)

Character-level path handling is embedded over `List Char`. -/

/-- Python `file_path.startswith("/")`: the first character is the
separator. -/
def startsWithSep : List Char → Bool
  | [] => false
  | c :: _ => c == '/'

/-- A path starting with two or more separators. -/
def startsWithDoubleSep : List Char → Bool
  | '/' :: '/' :: _ => true
  | _ => false

/-- `os.path.join(a, b)` for POSIX paths: an absolute second component
discards the first; otherwise the components are joined with exactly
one separator. -/
def pathJoinChars (a b : List Char) : List Char :=
  if startsWithSep b then b
  else if a = [] then b
  else if a.getLast? == some '/' then a ++ b
  else a ++ '/' :: b

/-- The relative-path construction of `artifact_reader`: strip one
leading separator from the reported path, then join the node id in
front of it. -/
def buildRelPath (nodeId filePath : List Char) : List Char :=
  pathJoinChars nodeId
    (if startsWithSep filePath then filePath.drop 1 else filePath)

/-! ### GraphAssembler: `cordra.create_dataset_from_workflow_artifacts`
(src/app/cordra.py lines 24-240)

Repository-assigned identifiers are numbers drawn from a fresh-id
counter.  Every repository call (create/read/update) is numbered by a
call counter and can be made to raise through the fault oracle
`failAt`; this models "any exception at any step" on the repository
side, while input-induced exceptions (missing keys, failing downloads,
unparseable timestamps, the `modgp` species lookup) are modelled
directly.  `delete`, used only by the rollback handler, follows the
collaborator contract (it tolerates deleting records that other ledger
records still reference) and does not raise.  The `deleteLog` field
records every delete call the handler issues. -/

/-- The Python exceptions the assembly run can raise. -/
inductive Err where
  | repoFault : Nat → Err
  | keyError : String → Err
  | valueError : String → Err
  | stopIteration : Err
  | attributeError : Err
  | downloadError : String → Err
deriving DecidableEq, Repr

/-- A repository record's JSON payload, restricted to the keys the
source ever writes or reads.  `partOf` distinguishes an absent key
(`none`), a key holding JSON `null` (`some none`) and a key holding a
list of identifiers (`some (some l)`), because the back-patch step
distinguishes exactly these three cases. -/
structure RecObj where
  otype : String := ""
  name : Option String := none
  description : Option String := none
  identifier : Option String := none
  contentSize : Option Nat := none
  encodingFormat : Option String := none
  contentUrl : Option String := none
  programmingLanguage : Option String := none
  value : Option String := none
  input : List Nat := []
  result : List Nat := []
  objectIds : List Nat := []
  instrument : Option Nat := none
  agent : Option Nat := none
  startTime : Option Nat := none
  endTime : Option Nat := none
  author : List Nat := []
  hasPart : List Nat := []
  mentions : List Nat := []
  mainEntity : Option Nat := none
  keywords : Option (List String) := none
  license : Option String := none
  partOf : Option (Option (List Nat)) := none
  resultOf : Option Nat := none
deriving DecidableEq, Repr

/-- The state threaded through one assembly run: the repository's
records (insertion ordered), the log of handler delete calls, the
repository call counter, the fresh-identifier counter, and the
`created_ids` ledger (identifier, type) in creation order. -/
structure CState where
  repo : List (Nat × RecObj)
  deleteLog : List Nat
  calls : Nat
  nextId : Nat
  ledger : List (Nat × String)
deriving DecidableEq, Repr

/-- `cordra.CordraObject.create`: one numbered repository call; on
fault, raises; otherwise stores the payload under a fresh identifier
(appended at the end, insertion order) and returns the identifier. -/
def repoCreate (failAt : Nat → Bool) (ty : String) (obj : RecObj)
    (st : CState) : Except Err Nat × CState :=
  if failAt st.calls then
    (.error (.repoFault st.calls), { st with calls := st.calls + 1 })
  else
    (.ok st.nextId,
     { st with calls := st.calls + 1,
               repo := st.repo ++ [(st.nextId, { obj with otype := ty })],
               nextId := st.nextId + 1 })

/-- `created_ids[id] = type`: append to the ledger (identifiers are
fresh, so the Python dict insert is an append). -/
def ledgerAdd (id : Nat) (ty : String) (st : CState) : CState :=
  { st with ledger := st.ledger ++ [(id, ty)] }

/-- A create immediately recorded in the ledger, as every create of the
run is in the source. -/
def repoCreateTracked (failAt : Nat → Bool) (ty : String) (obj : RecObj)
    (st : CState) : Except Err Nat × CState :=
  match repoCreate failAt ty obj st with
  | (.error e, st') => (.error e, st')
  | (.ok id, st') => (.ok id, ledgerAdd id ty st')

/-- `cordra.CordraObject.read`: one numbered repository call; on fault,
raises; otherwise returns the record stored under the identifier. -/
def repoRead (failAt : Nat → Bool) (id : Nat) (st : CState) :
    Except Err RecObj × CState :=
  if failAt st.calls then
    (.error (.repoFault st.calls), { st with calls := st.calls + 1 })
  else
    match st.repo.find? (fun p => p.1 == id) with
    | some p => (.ok p.2, { st with calls := st.calls + 1 })
    | none => (.error (.keyError "read: unknown id"), { st with calls := st.calls + 1 })

/-- `cordra.CordraObject.update`: one numbered repository call; on
fault, raises; otherwise replaces the payload stored under the
identifier in place. -/
def repoUpdate (failAt : Nat → Bool) (id : Nat) (obj : RecObj)
    (st : CState) : Except Err Unit × CState :=
  if failAt st.calls then
    (.error (.repoFault st.calls), { st with calls := st.calls + 1 })
  else
    (.ok (),
     { st with calls := st.calls + 1,
               repo := st.repo.map (fun p => if p.1 == id then (id, obj) else p) })

/-- `cordra.CordraObject.delete`, as the rollback handler uses it:
removes the record stored under the identifier and logs the call.  Per
the collaborator contract it does not raise. -/
def repoDelete (id : Nat) (st : CState) : CState :=
  { st with repo := st.repo.filter (fun p => p.1 != id),
            deleteLog := st.deleteLog ++ [id] }

/-- Lookup in an annotation mapping (`anns[k]` / `anns.get(k)`). -/
def annLookup (anns : List (String × String)) (k : String) : Option String :=
  (anns.find? (fun p => p.1 == k)).map (fun p => p.2)

/-- `os.path.basename` for the slash-separated relative paths the
stream yields: the part after the last separator. -/
def basename (s : String) : String :=
  (s.splitOn "/").reverse.headD ""

/-- The ledger identifiers of a given type, in creation order
(`[id for id, t in created_ids.items() if t == ty]`). -/
def ledgerIdsOfType (st : CState) (ty : String) : List Nat :=
  (st.ledger.filter (fun p => p.2 == ty)).map (fun p => p.1)

/-- One workflow argument parameter as the assembler reads it:
`"name"` always present (direct access is only made on it after
membership tests in the source paths we model), `"description"` and
`"value"` optional. -/
structure ParamC where
  name : String
  description : Option String := none
  value : Option String := none
deriving DecidableEq, Repr

/-- The parts of the `wfl` status response the assembler reads. -/
structure WflC where
  metadataName : String
  metadataAnns : Option (List (String × String))
  statusStartedAt : String
  statusFinishedAt : Option String
  statusNodes : List (String × Option String)
  specArgsParams : Option (List ParamC)
deriving DecidableEq, Repr

/-- The parts of the `reconstructed_wfl` document the assembler reads:
`metadata.annotations` is accessed directly (KeyError when absent), the
parameter list through `.get` chains defaulting to `[]`. -/
structure ReconWfl where
  metadataAnns : Option (List (String × String))
  specArgsParams : List ParamC
deriving DecidableEq, Repr

deriving instance DecidableEq for Except

/-- One item of the artifact stream as the file loop consumes it: the
relative path, the download outcome (`ok size` after draining the
chunks into the temporary file, or the download exception), and the
MIME classification (a classifier failure is already absorbed into
`none` by the source). -/
structure StreamItem where
  fileName : String
  content : Except Err Nat
  encoding : Option String := none
deriving DecidableEq, Repr

/-- The submitter annotation key prefix (src/app/cordra.py line 37). -/
def submitterIdKey : String := "argo-connector/submitterId"

/-- The Person loop (src/app/cordra.py lines 36-47): for every
annotation key of the reconstructed workflow starting with the
submitter prefix, look the ORCID up in the *status response's*
annotations (a direct access that can raise), create one Person record,
and remember the number-`"1"` submitter as the designated agent. -/
def processPersons (failAt : Nat → Bool) (wflAnns : Option (List (String × String))) :
    List (String × String) → Option Nat → CState → Except Err (Option Nat) × CState
  | [], author, st => (.ok author, st)
  | (key, _) :: rest, author, st =>
    if strStartsWith key submitterIdKey then
      match wflAnns with
      | none => (.error (.keyError "metadata.annotations"), st)
      | some anns =>
        match annLookup anns (submitterIdKey ++ key.drop submitterIdKey.length) with
        | none =>
          (.error (.keyError (submitterIdKey ++ key.drop submitterIdKey.length)), st)
        | some orcid =>
          match repoCreateTracked failAt "Person"
              { identifier := some ("https://orcid.org/" ++ orcid),
                name := annLookup anns
                  ("argo-connector/submitterName" ++ key.drop submitterIdKey.length) } st with
          | (.error e, st') => (.error e, st')
          | (.ok id, st') =>
            processPersons failAt wflAnns rest
              (if key.drop submitterIdKey.length == "1" then some id else author) st'
    else processPersons failAt wflAnns rest author st

/-- The file loop (src/app/cordra.py lines 51-101): a failing download
re-raises after closing the iterator; an oversize file is skipped; any
other file becomes one FileObject record. -/
def processFiles (failAt : Nat → Bool) (maxSize : Nat) :
    List StreamItem → CState → Except Err Unit × CState
  | [], st => (.ok (), st)
  | item :: rest, st =>
    match item.content with
    | .error e => (.error e, st)
    | .ok size =>
      if size > maxSize then processFiles failAt maxSize rest st
      else
        match repoCreateTracked failAt "FileObject"
            { name := some (basename item.fileName),
              contentSize := some size,
              encodingFormat := item.encoding,
              contentUrl := some item.fileName } st with
        | (.error e, st') => (.error e, st')
        | (.ok _, st') => processFiles failAt maxSize rest st'

/-- The parameter loop (src/app/cordra.py lines 105-124): one
FormalParameter per declared parameter, plus one PropertyValue when the
parameter carries a value. -/
def processParams (failAt : Nat → Bool) :
    List ParamC → CState → Except Err Unit × CState
  | [], st => (.ok (), st)
  | p :: rest, st =>
    match repoCreateTracked failAt "FormalParameter"
        { name := some p.name, description := p.description } st with
    | (.error e, st') => (.error e, st')
    | (.ok _, st') =>
      match p.value with
      | none => processParams failAt rest st'
      | some v =>
        match repoCreateTracked failAt "PropertyValue"
            { name := some p.name, description := p.description,
              value := some v } st' with
        | (.error e, st2) => (.error e, st2)
        | (.ok _, st2) => processParams failAt rest st2

/-- The end-time fallback loop (src/app/cordra.py lines 156-161): the
latest parseable node finish time; an unparseable node finish time
raises. -/
def maxNodeEnd (parseTime : String → Option Nat) :
    List (String × Option String) → Option Nat → Except Err (Option Nat)
  | [], acc => .ok acc
  | (_, none) :: rest, acc => maxNodeEnd parseTime rest acc
  | (_, some s) :: rest, acc =>
    match parseTime s with
    | none => .error (.valueError s)
    | some t =>
      maxNodeEnd parseTime rest
        (match acc with
         | none => some t
         | some m => if t > m then some t else some m)

/-- The Dataset properties (src/app/cordra.py lines 179-218): name and
description from the `workflows.argoproj.io` annotations (with the
workflow name as fallback), author/hasPart/mentions/mainEntity from the
ledger, and - only for workflows whose name starts with `modgp-` - the
hardcoded keyword list and license merged over them (the species
parameter lookup of that branch can raise). -/
def datasetProperties (wfl : WflC) (st : CState) (actionId wflObjId : Nat) :
    Except Err RecObj :=
  let anns := wfl.metadataAnns.getD []
  let props : RecObj :=
    { name := some ((annLookup anns "workflows.argoproj.io/title").getD wfl.metadataName),
      description := annLookup anns "workflows.argoproj.io/description",
      author := ledgerIdsOfType st "Person",
      hasPart := (st.ledger.filter
        (fun p => p.2 == "FileObject" || p.2 == "Workflow")).map (fun p => p.1),
      mentions := [actionId],
      mainEntity := some wflObjId }
  if strStartsWith wfl.metadataName "modgp-" then
    match wfl.specArgsParams with
    | none => .error (.keyError "spec.arguments.parameters")
    | some ps =>
      match ps.find? (fun p => p.name == "species") with
      | none => .error .stopIteration
      | some p =>
        match p.value with
        | none => .error (.keyError "value")
        | some species =>
          .ok { props with
                name := some ("Species distribution models for " ++ species),
                description := some
                  ("Species distribution model calculated with ModGP for " ++ species),
                keywords := some ["GBIF", "Occurrence", "Biodiversity",
                                  "Observation", "ModGP", "SDM"],
                license := some "https://spdx.org/licenses/CC-BY-SA-2.0" }
  else .ok props

/-- The back-patch of one FileObject record (src/app/cordra.py lines
228-231): `partOf` is set to the Dataset only when absent or `null`;
`resultOf` is set to the CreateAction unconditionally (the source
guards on `action is not None`, and `action` is always bound by the
time this step runs). -/
def backpatchObj (datasetId actionId : Nat) (obj : RecObj) : RecObj :=
  { (match obj.partOf with
     | some (some _) => obj
     | _ => { obj with partOf := some (some [datasetId]) }) with
    resultOf := some actionId }

/-- The back-patch loop (src/app/cordra.py lines 226-232): read each
FileObject back, patch it, write it back in place. -/
def processBackpatch (failAt : Nat → Bool) (datasetId actionId : Nat) :
    List Nat → CState → Except Err Unit × CState
  | [], st => (.ok (), st)
  | id :: rest, st =>
    match repoRead failAt id st with
    | (.error e, st') => (.error e, st')
    | (.ok obj, st') =>
      match repoUpdate failAt id (backpatchObj datasetId actionId obj) st' with
      | (.error e, st2) => (.error e, st2)
      | (.ok _, st2) => processBackpatch failAt datasetId actionId rest st2

/-- The body of the `try` block of
`create_dataset_from_workflow_artifacts`, in source order: Person
records, FileObject records, parameter records, the Workflow record,
the time span, the CreateAction record, the Dataset record, then the
back-patch of every FileObject. -/
def assembleBody (failAt : Nat → Bool) (parseTime : String → Option Nat)
    (wfl : WflC) (recon : ReconWfl) (stream : List StreamItem)
    (maxSize : Nat) (st : CState) : Except Err Nat × CState :=
  match recon.metadataAnns with
  | none => (.error (.keyError "metadata.annotations"), st)
  | some reconAnns =>
    match processPersons failAt wfl.metadataAnns reconAnns none st with
    | (.error e, st1) => (.error e, st1)
    | (.ok author, st1) =>
      match processFiles failAt maxSize stream st1 with
      | (.error e, st2) => (.error e, st2)
      | (.ok _, st2) =>
        match processParams failAt recon.specArgsParams st2 with
        | (.error e, st3) => (.error e, st3)
        | (.ok _, st3) =>
          match repoCreateTracked failAt "Workflow"
              { name := some "workflow.yaml",
                encodingFormat := some "text/yaml",
                contentUrl := some "workflow.yaml",
                description := some "Argo workflow definition",
                programmingLanguage := some "https://argoproj.github.io/workflows",
                input := ledgerIdsOfType st3 "FormalParameter" } st3 with
          | (.error e, st4) => (.error e, st4)
          | (.ok wflObjId, st4) =>
            match parseTime wfl.statusStartedAt with
            | none => (.error (.valueError wfl.statusStartedAt), st4)
            | some startT =>
              match
                (match wfl.statusFinishedAt with
                 | some s =>
                   match parseTime s with
                   | some t => Except.ok (some t)
                   | none => Except.error (Err.valueError s)
                 | none => maxNodeEnd parseTime wfl.statusNodes none) with
              | .error e => (.error e, st4)
              | .ok none => (.error .attributeError, st4)
              | .ok (some endT) =>
                match repoCreateTracked failAt "CreateAction"
                    { result := ledgerIdsOfType st4 "FileObject",
                      startTime := some startT,
                      endTime := some endT,
                      instrument := some wflObjId,
                      objectIds := ledgerIdsOfType st4 "PropertyValue",
                      agent := author } st4 with
                | (.error e, st5) => (.error e, st5)
                | (.ok actionId, st5) =>
                  match datasetProperties wfl st5 actionId wflObjId with
                  | .error e => (.error e, st5)
                  | .ok props =>
                    match repoCreateTracked failAt "Dataset" props st5 with
                    | (.error e, st6) => (.error e, st6)
                    | (.ok datasetId, st6) =>
                      match processBackpatch failAt datasetId actionId
                          (ledgerIdsOfType st6 "FileObject") st6 with
                      | (.error e, st7) => (.error e, st7)
                      | (.ok _, st7) => (.ok datasetId, st7)

/-- The rollback handler's loop `for cordra_id in created_ids:
delete(cordra_id)`, in ledger (creation) order. -/
def cleanupLedger : List (Nat × String) → CState → CState
  | [], st => st
  | (id, _) :: rest, st => cleanupLedger rest (repoDelete id st)

/-- `cordra.create_dataset_from_workflow_artifacts`: run the body with
a fresh ledger (and a fresh delete log, which only instruments the
model); on success return the Dataset identifier, on any exception
delete every ledger record and re-raise the same exception. -/
def create_dataset_from_workflow_artifacts (failAt : Nat → Bool)
    (parseTime : String → Option Nat) (wfl : WflC) (recon : ReconWfl)
    (stream : List StreamItem) (maxSize : Nat) (st : CState) :
    Except Err Nat × CState :=
  match assembleBody failAt parseTime wfl recon stream maxSize
      { st with ledger := [], deleteLog := [] } with
  | (.ok d, st') => (.ok d, st')
  | (.error e, st') => (.error e, cleanupLedger st'.ledger st')

/-- The record currently stored in the repository under an identifier. -/
def lookupRepo (st : CState) (id : Nat) : Option RecObj :=
  (st.repo.find? (fun p => p.1 == id)).map (fun p => p.2)

/-- The run invariant maintained by the body of an assembly run that
started from repository contents `base`: the repository is `base` plus
one record per ledger entry, in ledger order; ledger identifiers are
pairwise distinct and foreign to `base`; every stored identifier is
below the fresh-identifier counter; and the body has issued no delete. -/
structure AssemblyInv (base : List (Nat × RecObj)) (st : CState) : Prop where
  decomp : ∃ tail, st.repo = base ++ tail ∧
    tail.map Prod.fst = st.ledger.map Prod.fst
  nodup : (st.ledger.map Prod.fst).Nodup
  fresh : ∀ i ∈ st.ledger.map Prod.fst, i ∉ base.map Prod.fst
  bound : ∀ i ∈ st.repo.map Prod.fst, i < st.nextId
  dlog : st.deleteLog = []

/-! Concrete inputs for witnesses and counterexamples. -/

/-- A status response with a template reference in the original spec. -/
def wflWithRef : WflR Nat :=
  { spec := some [("workflowTemplateRef", 7)],
    statusTemplateSpec := some (some []) }

/-- Input for the C4 amended-claim witness. -/
def wflC4w : WflR Nat :=
  { spec := some [("workflowTemplateRef", 3)],
    statusTemplateSpec := some (some [("x", 9)]) }

/-- A FileObject payload already linked into another dataset. -/
def objLinked : RecObj := { partOf := some (some [42]) }

/-- A FileObject payload carrying a pre-existing action back-reference. -/
def objPrior : RecObj := { resultOf := some 5 }

/-- An empty assembly state. -/
def cstEmpty : CState :=
  { repo := [], deleteLog := [], calls := 0, nextId := 0, ledger := [] }

/-- A non-`modgp` status response carrying the dedicated license and
keywords annotations that `submit` writes (src/app/main.py lines
217-220). -/
def wflLicensed : WflC :=
  { metadataName := "wf-generic",
    metadataAnns := some
      [("argo-connector/license", "https://spdx.org/licenses/MIT"),
       ("argo-connector/keywords", "a,b")],
    statusStartedAt := "2024-01-01T00:00:00Z",
    statusFinishedAt := none,
    statusNodes := [],
    specArgsParams := none }

/-- Status response for the rollback witness run. -/
def wWfl : WflC :=
  { metadataName := "wf-w",
    metadataAnns := some [("argo-connector/submitterId1", "0000-0001-2345-6789")],
    statusStartedAt := "s", statusFinishedAt := some "f",
    statusNodes := [], specArgsParams := none }

/-- Reconstructed document for the rollback witness run. -/
def wRecon : ReconWfl :=
  { metadataAnns := some [("argo-connector/submitterId1", "unused")],
    specArgsParams := [] }

/-- Fault oracle for the rollback witness run: the third repository
call (the Workflow create) raises. -/
def wFailAt : Nat → Bool := fun n => n == 2

/-- Timestamp parser for the witness runs. -/
def wParseTime : String → Option Nat := fun _ => some 0

/-- The rollback witness run: one Person and one FileObject are
created, then the Workflow create raises. -/
def wRollbackRun : Except Err Nat × CState :=
  create_dataset_from_workflow_artifacts wFailAt wParseTime wWfl wRecon
    [{ fileName := "out/data.csv", content := .ok 10 }] 100 cstEmpty

/-- Starting state for the back-patch witnesses: one stored FileObject
already linked elsewhere, one with a pre-existing back-reference. -/
def bpState : CState :=
  { repo := [(0, objLinked), (1, objPrior)], deleteLog := [],
    calls := 0, nextId := 2, ledger := [(0, "FileObject"), (1, "FileObject")] }

/-- The back-patch witness run over both stored FileObjects, patching
them towards dataset 7 and action 9, with no repository fault. -/
def bpRun : Except Err Unit × CState :=
  processBackpatch (fun _ => false) 7 9 [0, 1] bpState

/-! ## Theorems -/

/-- Helper: on a well-formed artifact, one loop iteration of
`get_artifact_list` returns the spec-side decision: the triple when the
artifact matches, a skip otherwise, never an error. -/
theorem getArtifactOne_wf (wflName nodeName : String) (a : Artifact)
    (h : artifactWF a = true) :
    getArtifactOne wflName nodeName a =
      .ok (if artifactMatches wflName a then some (tripleOf nodeName a) else none) := by
  obtain ⟨nmo, pth, key, del, gc⟩ := a
  simp only [artifactWF, Bool.and_eq_true, Bool.or_eq_true] at h
  obtain ⟨⟨⟨hkey, hname⟩, hgc⟩, hpath⟩ := h
  obtain ⟨k, rfl⟩ := Option.isSome_iff_exists.mp hkey
  obtain ⟨nm, rfl⟩ := Option.isSome_iff_exists.mp hname
  simp only [Option.getD_some] at hpath
  simp only [getArtifactOne, artifactMatches, tripleOf, Option.getD_some]
  by_cases hc : strContains k wflName
  · simp only [hc, Bool.not_true, Bool.false_eq_true, if_false, Bool.true_and]
    have hdel : del = some true ∨ del.getD false = false := by
      rcases del with _ | b
      · exact Or.inr rfl
      · cases b
        · exact Or.inr rfl
        · exact Or.inl rfl
    rcases hdel with hdel | hdel
    · subst hdel; simp
    · rw [hdel]
      simp only [Bool.not_false, Bool.true_and, Bool.false_eq_true, if_false]
      cases gc with
      | none =>
        by_cases hnm : nm = "main-logs"
        · subst hnm; simp
        · have h1 : (nm == "main-logs") = false := by simp [hnm]
          rcases pth with _ | p
          · simp [h1] at hpath
          · simp [h1]
      | some g =>
        obtain ⟨strat⟩ := g
        obtain ⟨s, rfl⟩ := Option.isSome_iff_exists.mp (by simpa using hgc)
        simp only [Option.getD_some]
        by_cases hs : s = "Never"
        · subst hs
          simp only [bne_self_eq_false, beq_self_eq_true, if_true]
          by_cases hnm : nm = "main-logs"
          · subst hnm; simp
          · have h1 : (nm == "main-logs") = false := by simp [hnm]
            rcases pth with _ | p
            · simp [h1] at hpath
            · simp [h1]
        · have h1 : (s == "Never") = false := by simp [hs]
          have h2 : (s != "Never") = true := by simp [bne, h1]
          rw [h2]
          simp only [h1, Bool.false_eq_true, if_false]
  · have h2 : strContains k wflName = false := by simp [hc]
    rw [h2]
    simp

/-- Helper: over a list of well-formed artifacts, the inner loop keeps
exactly the matching ones, as triples, in order. -/
theorem processArtifacts_wf (wflName nodeName : String) (arts : List Artifact)
    (h : arts.all artifactWF = true) :
    processArtifacts wflName nodeName arts =
      .ok ((arts.filter (artifactMatches wflName)).map (tripleOf nodeName)) := by
  induction arts with
  | nil => rfl
  | cons a rest ih =>
    simp only [List.all_cons, Bool.and_eq_true] at h
    simp only [processArtifacts, getArtifactOne_wf wflName nodeName a h.1, ih h.2,
      List.filter_cons]
    by_cases hm : artifactMatches wflName a
    · simp [hm]
    · simp [hm]

/-- Helper: over well-formed nodes, the node loop returns the spec-side
flattening. -/
theorem processNodes_wf (wflName : String) (nodes : List (String × ArgoNode))
    (h : (nodes.all fun p =>
      ((p.2.outputs.bind NodeOutputs.artifacts).getD []).all artifactWF) = true) :
    processNodes wflName nodes =
      .ok (nodes.flatMap fun p =>
        (((p.2.outputs.bind NodeOutputs.artifacts).getD []).filter
          (artifactMatches wflName)).map (tripleOf p.1)) := by
  induction nodes with
  | nil => rfl
  | cons p rest ih =>
    simp only [List.all_cons, Bool.and_eq_true] at h
    obtain ⟨nodeName, node⟩ := p
    obtain ⟨outs⟩ := node
    cases outs with
    | none => simpa [processNodes] using ih h.2
    | some o =>
      obtain ⟨arts⟩ := o
      cases arts with
      | none => simpa [processNodes] using ih h.2
      | some l =>
        have h1 : l.all artifactWF = true := by simpa using h.1
        simp [processNodes, processArtifacts_wf wflName nodeName l h1, ih h.2]

/-- C2 counterexample: on a status tree holding one artifact without a
storage key, `get_artifact_list` raises a `KeyError` instead of
skipping the artifact, refuting "never raises". -/
theorem get_artifact_list_raises_on_missing_storage_key :
    get_artifact_list wflMissingKey = .error "KeyError: s3.key" := by
  rfl

/-- C2 (amended): node-level missing fields (`outputs`, `artifacts`)
are skipped without error, and on status trees all of whose artifacts
carry the storage key, a strategy inside any garbage-collection block,
a name, and a path (unless named `main-logs`), `get_artifact_list`
never raises; but an artifact missing one of those fields raises a
`KeyError` rather than being skipped. -/
theorem get_artifact_list_total_on_wellformed (wfl : ArgoWorkflow)
    (h : wflWF wfl = true) :
    ∃ l, get_artifact_list wfl = .ok l :=
  ⟨_, processNodes_wf wfl.metadataName wfl.nodes h⟩

/-- C2 witness: the amended claim applied to a concrete well-formed
two-node tree. -/
theorem get_artifact_list_total_on_wellformed_witness :
    ∃ l, get_artifact_list wflTwoNodes = .ok l :=
  get_artifact_list_total_on_wellformed wflTwoNodes rfl

/-- C3: on a well-formed status tree, `get_artifact_list` returns
exactly the triples of the artifacts whose storage key contains the
workflow's own name, which are not marked deleted, and whose
garbage-collection strategy, when present, is `"Never"` - node by node
in tree order, artifact by artifact in list order.  In particular every
returned triple's artifact passes the key-substring test and every
deleted or GC-planned artifact is excluded. -/
theorem get_artifact_list_filter_characterization (wfl : ArgoWorkflow)
    (h : wflWF wfl = true) :
    get_artifact_list wfl = .ok (specArtifactList wfl) :=
  processNodes_wf wfl.metadataName wfl.nodes h

/-- C3 witness: on the concrete two-node tree (node `A` kept, node `B`
garbage-collected on completion) exactly node `A`'s triple returns. -/
theorem get_artifact_list_filter_characterization_witness :
    get_artifact_list wflTwoNodes = .ok [("A", "result", "/out/data.csv")] := by
  rw [get_artifact_list_filter_characterization wflTwoNodes rfl]
  rfl

theorem reconstruct_workflow_mutates_input :
    ∃ d w', reconstruct_workflow wflAliased = .ok (d, w') ∧ w' ≠ wflAliased := by
  refine ⟨_, _, rfl, ?_⟩
  decide

theorem reconstruct_workflow_output_aliases_input {V : Type} (wfl : WflR V)
    (d : RDoc V) (w' : WflR V) (h : reconstruct_workflow wfl = .ok (d, w')) :
    w' = { wfl with spec := some d.spec } := by
  unfold reconstruct_workflow at h
  split at h
  · simp at h
  · split at h
    · simp at h
    · simp at h
    · split at h
      · simp only [Except.ok.injEq, Prod.mk.injEq] at h
        obtain ⟨hd, hw⟩ := h
        rw [← hw, ← hd]
      · simp at h

theorem keys_map_preserved {V : Type} (d : List (String × V)) (k : String) (v : V) :
    (d.map (fun p => if p.1 == k then (k, v) else p)).map Prod.fst = d.map Prod.fst := by
  rw [List.map_map]
  refine List.map_congr_left ?_
  intro p _
  by_cases hp : p.1 = k
  · simp [hp]
  · simp [hp]

theorem dictHasKey_eq_keys {V : Type} (d : List (String × V)) (k : String) :
    dictHasKey d k = (d.map Prod.fst).any (fun s => s == k) := by
  induction d with
  | nil => rfl
  | cons p rest ih =>
    simp only [dictHasKey, List.any_cons, List.map_cons] at ih ⊢
    rw [ih]

theorem dictHasKey_dictSet {V : Type} (d : List (String × V)) (k k' : String) (v : V) :
    dictHasKey (dictSet d k v) k' = (dictHasKey d k' || k == k') := by
  unfold dictSet
  by_cases hk : d.any (fun p => p.1 == k)
  · simp only [hk, if_true]
    rw [dictHasKey_eq_keys, keys_map_preserved, ← dictHasKey_eq_keys]
    by_cases he : k = k'
    · subst he
      have hh : dictHasKey d k = true := hk
      simp [hh]
    · have hb : (k == k') = false := by simp [he]
      simp [hb]
  · simp only [hk, if_false]
    simp [dictHasKey, List.any_append]

theorem dictHasKey_mergeInto {V : Type} (tmpl spec : List (String × V)) (k : String) :
    dictHasKey (mergeInto spec tmpl) k = (dictHasKey spec k || dictHasKey tmpl k) := by
  induction tmpl generalizing spec with
  | nil => simp [mergeInto, dictHasKey]
  | cons p rest ih =>
    have hstep : mergeInto spec (p :: rest) = mergeInto (dictSet spec p.1 p.2) rest := rfl
    rw [hstep, ih, dictHasKey_dictSet]
    simp [dictHasKey, List.any_cons]
    by_cases h1 : (p.1 == k) <;> by_cases h2 : dictHasKey spec k <;>
      simp_all [Bool.or_comm, Bool.or_assoc, Bool.or_left_comm]

theorem reconstruct_workflow_keyerror_characterization {V : Type} (wfl : WflR V) :
    ((∃ r, reconstruct_workflow wfl = .ok r) ↔
      (∃ spec tmpl, wfl.spec = some spec ∧ wfl.statusTemplateSpec = some (some tmpl) ∧
        (dictHasKey spec "workflowTemplateRef"
          || dictHasKey tmpl "workflowTemplateRef") = true))
    ∧ (∀ d w', reconstruct_workflow wfl = .ok (d, w') →
        ∃ spec tmpl, wfl.spec = some spec ∧ wfl.statusTemplateSpec = some (some tmpl) ∧
          d.kind = "Workflow" ∧
          d.spec = dictDelKey (mergeInto spec tmpl) "workflowTemplateRef") := by
  constructor
  · constructor
    · rintro ⟨r, hr⟩
      unfold reconstruct_workflow at hr
      rcases hspec : wfl.spec with _ | spec
      · rw [hspec] at hr; simp at hr
      · rw [hspec] at hr
        rcases htm : wfl.statusTemplateSpec with _ | tm
        · rw [htm] at hr; simp at hr
        · rcases tm with _ | tmpl
          · rw [htm] at hr; simp at hr
          · rw [htm] at hr
            by_cases hk : dictHasKey (mergeInto spec tmpl) "workflowTemplateRef"
            · refine ⟨spec, tmpl, rfl, rfl, ?_⟩
              rw [← dictHasKey_mergeInto]; exact hk
            · have hk' : dictHasKey (mergeInto spec tmpl) "workflowTemplateRef" = false := by
                simpa using hk
              simp [hk'] at hr
    · rintro ⟨spec, tmpl, h1, h2, h3⟩
      unfold reconstruct_workflow
      rw [h1, h2]
      have hk : dictHasKey (mergeInto spec tmpl) "workflowTemplateRef" = true := by
        rw [dictHasKey_mergeInto]; exact h3
      simp [hk]
  · intro d w' hr
    unfold reconstruct_workflow at hr
    rcases hspec : wfl.spec with _ | spec
    · rw [hspec] at hr; simp at hr
    · rw [hspec] at hr
      rcases htm : wfl.statusTemplateSpec with _ | tm
      · rw [htm] at hr; simp at hr
      · rcases tm with _ | tmpl
        · rw [htm] at hr; simp at hr
        · rw [htm] at hr
          by_cases hk : dictHasKey (mergeInto spec tmpl) "workflowTemplateRef"
          · simp only [hk, if_true, Except.ok.injEq, Prod.mk.injEq] at hr
            refine ⟨spec, tmpl, rfl, rfl, ?_, ?_⟩
            · rw [← hr.1]
            · rw [← hr.1]
          · have hk' : dictHasKey (mergeInto spec tmpl) "workflowTemplateRef" = false := by
              simpa using hk
            simp [hk'] at hr

theorem reconstruct_workflow_keyerror_characterization_witness :
    ∃ r, reconstruct_workflow wflWithRef = .ok r :=
  (reconstruct_workflow_keyerror_characterization wflWithRef).1.mpr
    ⟨[("workflowTemplateRef", 7)], [], rfl, rfl, by decide⟩

theorem reconstruct_workflow_keyerror_despite_required_keys :
    wflNoRef.spec.isSome = true ∧
    wflNoRef.statusTemplateSpec = some (some [("entrypoint", 2)]) ∧
    ∃ e w', reconstruct_workflow wflNoRef = .error (e, w') :=
  ⟨rfl, rfl, ⟨_, _, rfl⟩⟩

theorem reconstruct_workflow_output_aliases_input_witness :
    ({ spec := some [("x", 9)], statusTemplateSpec := some (some [("x", 9)]) } : WflR Nat) =
      { wflC4w with spec := some (RDoc.spec { kind := "Workflow", spec := [("x", 9)] }) } :=
  reconstruct_workflow_output_aliases_input wflC4w
    { kind := "Workflow", spec := [("x", 9)] }
    { spec := some [("x", 9)], statusTemplateSpec := some (some [("x", 9)]) } rfl

mutual
theorem recursive_reader_eq_leaves (t : Entry) (url path : String) :
    recursive_artifact_reader t url path = leavesOf t path := by
  cases t with
  | file c => rfl
  | dir links =>
    rw [recursive_artifact_reader, leavesOf]
    exact readLinks_eq_leaves links url path
theorem readLinks_eq_leaves (links : List (String × Entry)) (url path : String) :
    readLinks links url path = leavesOfLinks links path := by
  cases links with
  | nil => rfl
  | cons hd rest =>
    obtain ⟨href, e⟩ := hd
    rw [readLinks, leavesOfLinks]
    by_cases h : href = ".."
    · simp only [h]
      rw [readLinks_eq_leaves rest url path]
      simp
    · have h1 : (href == "..") = false := by simp [h]
      rw [h1]
      simp only [Bool.false_eq_true, if_false]
      rw [recursive_reader_eq_leaves e (urlJoin url href) (pathAppend path href),
        readLinks_eq_leaves rest url path]
end

mutual
theorem leavesOf_length (t : Entry) (path : String) :
    (leavesOf t path).length = countLeaves t := by
  cases t with
  | file c => rfl
  | dir links =>
    rw [leavesOf, countLeaves]
    exact leavesOfLinks_length links path
theorem leavesOfLinks_length (links : List (String × Entry)) (path : String) :
    (leavesOfLinks links path).length = countLeavesLinks links := by
  cases links with
  | nil => rfl
  | cons hd rest =>
    obtain ⟨href, e⟩ := hd
    rw [leavesOfLinks, countLeavesLinks]
    by_cases h : href = ".."
    · simp only [h]
      simp [leavesOfLinks_length rest path]
    · have h1 : (href == "..") = false := by simp [h]
      rw [h1]
      simp only [Bool.false_eq_true, if_false, List.length_append]
      rw [leavesOf_length e (pathAppend path href), leavesOfLinks_length rest path]
end

/-- C6: over every finite served directory tree, recursive resolution
terminates (it is a total function of the tree) and yields exactly the
leaf files of the tree - one `(path, content)` pair per leaf, with the
anchor text of each step appended to the relative path - skipping
exactly the parent-directory anchors. -/
theorem recursive_artifact_reader_flattens (t : Entry) (url path : String) :
    recursive_artifact_reader t url path = leavesOf t path ∧
    (recursive_artifact_reader t url path).length = countLeaves t := by
  refine ⟨recursive_reader_eq_leaves t url path, ?_⟩
  rw [recursive_reader_eq_leaves t url path]
  exact leavesOf_length t path

/-- C7 counterexample: a reported path starting with two separators
keeps one after normalization, and `os.path.join` then discards the
node id, leaving a relative path that begins with a separator. -/
theorem buildRelPath_leading_sep_counterexample :
    startsWithSep (buildRelPath "node-1".data "//a.txt".data) = true := by decide

/-- C7 (amended): for a node id that does not begin with a separator
and a reported path that does not begin with two separators, the built
relative path never begins with a separator; a reported path beginning
with two or more separators defeats the normalization. -/
theorem buildRelPath_no_leading_sep (nodeId filePath : List Char)
    (h1 : startsWithSep nodeId = false)
    (h2 : startsWithDoubleSep filePath = false) :
    startsWithSep (buildRelPath nodeId filePath) = false := by
  have hfp : startsWithSep
      (if startsWithSep filePath then filePath.drop 1 else filePath) = false := by
    match filePath, h2 with
    | [], _ => rfl
    | c :: rest, h2 =>
      by_cases hc : c = '/'
      · subst hc
        have hs : startsWithSep ('/' :: rest) = true := by simp [startsWithSep]
        rw [hs]
        simp only [if_true, List.drop_succ_cons, List.drop_zero]
        match rest, h2 with
        | [], _ => rfl
        | c2 :: r2, h2 =>
          by_cases hc2 : c2 = '/'
          · subst hc2
            simp [startsWithDoubleSep] at h2
          · simp [startsWithSep, hc2]
      · have hs : startsWithSep (c :: rest) = false := by simp [startsWithSep, hc]
        rw [hs]
        simp only [Bool.false_eq_true, if_false]
        exact hs
  unfold buildRelPath pathJoinChars
  rw [hfp]
  simp only [Bool.false_eq_true, if_false]
  match nodeId, h1 with
  | [], _ =>
    simp only [if_pos rfl]
    exact hfp
  | c :: l, h1 =>
    have hne : ¬(c :: l = []) := by simp
    rw [if_neg hne]
    by_cases hl : (c :: l).getLast? == some '/'
    · rw [if_pos hl]
      simpa [startsWithSep] using h1
    · rw [if_neg hl]
      simpa [startsWithSep] using h1

/-- C7 amended-claim witness at a concrete node id and reported path. -/
theorem buildRelPath_no_leading_sep_witness :
    startsWithSep (buildRelPath "node-1".data "/a.txt".data) = false :=
  buildRelPath_no_leading_sep "node-1".data "/a.txt".data (by decide) (by decide)

theorem backpatchObj_keeps_partOf (dsId actId : Nat) (obj : RecObj) (v : List Nat)
    (h : obj.partOf = some (some v)) :
    (backpatchObj dsId actId obj).partOf = some (some v) := by
  simp [backpatchObj, h]

theorem backpatchObj_resultOf (dsId actId : Nat) (obj : RecObj) :
    (backpatchObj dsId actId obj).resultOf = some actId := rfl

theorem find_update_self (l : List (Nat × RecObj)) (id : Nat) (obj : RecObj) :
    (l.map (fun p => if p.1 == id then (id, obj) else p)).find? (fun p => p.1 == id) =
      (l.find? (fun p => p.1 == id)).map (fun _ => (id, obj)) := by
  induction l with
  | nil => rfl
  | cons p rest ih =>
    by_cases hp : p.1 = id
    · have himg : (if p.1 == id then (id, obj) else p) = (id, obj) := by simp [hp]
      rw [List.map_cons, himg, List.find?_cons_of_pos _ (by simp),
        List.find?_cons_of_pos _ (by simp [hp])]
      rfl
    · have himg : (if p.1 == id then (id, obj) else p) = p := by simp [hp]
      rw [List.map_cons, himg, List.find?_cons_of_neg _ (by simp [hp]),
        List.find?_cons_of_neg _ (by simp [hp]), ih]

theorem find_update_other (l : List (Nat × RecObj)) (id id' : Nat) (obj : RecObj)
    (h : id' ≠ id) :
    (l.map (fun p => if p.1 == id then (id, obj) else p)).find? (fun p => p.1 == id') =
      l.find? (fun p => p.1 == id') := by
  induction l with
  | nil => rfl
  | cons p rest ih =>
    by_cases hp : p.1 = id
    · have himg : (if p.1 == id then (id, obj) else p) = (id, obj) := by simp [hp]
      rw [List.map_cons, himg, List.find?_cons_of_neg _ (by simp [Ne.symm h]),
        List.find?_cons_of_neg _ (by simp [hp, Ne.symm h]), ih]
    · have himg : (if p.1 == id then (id, obj) else p) = p := by simp [hp]
      rw [List.map_cons, himg, List.find?_cons]
      by_cases hq : p.1 = id'
      · simp [hq]
      · simp only [List.find?_cons]
        have : (p.1 == id') = false := by simp [hq]
        rw [this]
        simp only [cond_false]
        exact ih

theorem repoRead_state (failAt : Nat → Bool) (id : Nat) (st : CState)
    (r : Except Err RecObj) (st' : CState)
    (h : repoRead failAt id st = (r, st')) :
    st' = { st with calls := st.calls + 1 } := by
  unfold repoRead at h
  split at h
  · injection h with h1 h2; exact h2.symm
  · split at h
    · injection h with h1 h2; exact h2.symm
    · injection h with h1 h2; exact h2.symm

theorem repoRead_ok_lookup (failAt : Nat → Bool) (id : Nat) (st : CState)
    (obj : RecObj) (st' : CState)
    (h : repoRead failAt id st = (.ok obj, st')) :
    lookupRepo st id = some obj := by
  unfold repoRead at h
  split at h
  · simp at h
  · split at h
    · rename_i p hp
      have := (Prod.mk.inj h).1
      injection this with hobj
      unfold lookupRepo
      rw [hp, ← hobj]
      rfl
    · simp at h

theorem repoUpdate_ok_state (failAt : Nat → Bool) (id : Nat) (obj : RecObj)
    (st st' : CState) (h : repoUpdate failAt id obj st = (.ok (), st')) :
    st' = { st with
            calls := st.calls + 1,
            repo := st.repo.map (fun p => if p.1 == id then (id, obj) else p) } := by
  unfold repoUpdate at h
  split at h
  · simp at h
  · injection h with h1 h2; exact h2.symm

theorem repoUpdate_err_state (failAt : Nat → Bool) (id : Nat) (obj : RecObj)
    (st st' : CState) (e : Err) (h : repoUpdate failAt id obj st = (.error e, st')) :
    st' = { st with calls := st.calls + 1 } := by
  unfold repoUpdate at h
  split at h
  · injection h with h1 h2; exact h2.symm
  · simp at h

theorem lookupRepo_update_self (failAt : Nat → Bool) (id : Nat) (obj : RecObj)
    (st st' : CState) (h : repoUpdate failAt id obj st = (.ok (), st')) :
    lookupRepo st' id = (lookupRepo st id).map (fun _ => obj) := by
  have hst := repoUpdate_ok_state failAt id obj st st' h
  subst hst
  show Option.map (fun p => p.2)
      ((st.repo.map (fun p => if p.1 == id then (id, obj) else p)).find?
        (fun p => p.1 == id)) =
    (Option.map (fun p => p.2) (st.repo.find? (fun p => p.1 == id))).map (fun _ => obj)
  rw [find_update_self]
  cases st.repo.find? (fun p => p.1 == id) <;> rfl

theorem lookupRepo_update_other (failAt : Nat → Bool) (id id' : Nat) (obj : RecObj)
    (st st' : CState) (hne : id' ≠ id)
    (h : repoUpdate failAt id obj st = (.ok (), st')) :
    lookupRepo st' id' = lookupRepo st id' := by
  have hst := repoUpdate_ok_state failAt id obj st st' h
  subst hst
  show Option.map (fun p => p.2)
      ((st.repo.map (fun p => if p.1 == id then (id, obj) else p)).find?
        (fun p => p.1 == id')) =
    lookupRepo st id'
  rw [find_update_other _ _ _ _ hne]
  rfl

/-- C8: the back-patch loop never overwrites an existing non-null
"part-of" reference: whatever record holds a non-null `partOf` value
before the loop still holds exactly that value after it, whether the
loop finished or raised partway. -/
theorem backpatch_preserves_existing_partOf
    (failAt : Nat → Bool) (dsId actId : Nat) (ids : List Nat)
    (st : CState) (r : Except Err Unit) (st' : CState) (id : Nat)
    (obj : RecObj) (v : List Nat)
    (hrun : processBackpatch failAt dsId actId ids st = (r, st'))
    (hobj : lookupRepo st id = some obj)
    (hpart : obj.partOf = some (some v)) :
    ∃ obj', lookupRepo st' id = some obj' ∧ obj'.partOf = some (some v) := by
  induction ids generalizing st obj r with
  | nil =>
    unfold processBackpatch at hrun
    injection hrun with h1 h2
    subst h2
    exact ⟨obj, hobj, hpart⟩
  | cons i rest ih =>
    unfold processBackpatch at hrun
    split at hrun
    · rename_i e st1 heq
      injection hrun with h1 h2
      subst h2
      rw [repoRead_state _ _ _ _ _ heq]
      exact ⟨obj, hobj, hpart⟩
    · rename_i robj st1 heq
      have hst1 := repoRead_state _ _ _ _ _ heq
      split at hrun
      · rename_i e st2 hequ
        injection hrun with h1 h2
        subst h2
        rw [repoUpdate_err_state _ _ _ _ _ _ hequ, hst1]
        exact ⟨obj, hobj, hpart⟩
      · rename_i u st2 hequ
        by_cases hii : id = i
        · subst hii
          have hro : robj = obj := by
            have h1 := repoRead_ok_lookup _ _ _ _ _ heq
            rw [hobj] at h1
            injection h1 with h1
            exact h1.symm
          subst hro
          have hl2 : lookupRepo st2 id = some (backpatchObj dsId actId robj) := by
            rw [lookupRepo_update_self _ _ _ _ _ hequ, hst1]
            have hcalm : lookupRepo { st with calls := st.calls + 1 } id =
                lookupRepo st id := rfl
            rw [hcalm, hobj]
            rfl
          exact ih st2 r (backpatchObj dsId actId robj) hrun hl2
            (backpatchObj_keeps_partOf dsId actId robj v hpart)
        · have hl2 : lookupRepo st2 id = some obj := by
            rw [lookupRepo_update_other _ _ _ _ _ _ hii hequ, hst1]
            exact hobj
          exact ih st2 r obj hrun hl2 hpart

/-- Helper frame property: the back-patch loop does not touch records
whose identifier it does not process. -/
theorem processBackpatch_lookup_frame
    (failAt : Nat → Bool) (dsId actId : Nat) (ids : List Nat)
    (st : CState) (r : Except Err Unit) (st' : CState) (id : Nat)
    (hrun : processBackpatch failAt dsId actId ids st = (r, st'))
    (hid : id ∉ ids) :
    lookupRepo st' id = lookupRepo st id := by
  induction ids generalizing st r with
  | nil =>
    unfold processBackpatch at hrun
    injection hrun with h1 h2
    subst h2
    rfl
  | cons i rest ih =>
    have hne : id ≠ i := fun h => hid (h ▸ List.mem_cons_self i rest)
    have hrest : id ∉ rest := fun h => hid (List.mem_cons_of_mem i h)
    unfold processBackpatch at hrun
    split at hrun
    · rename_i e st1 heq
      injection hrun with h1 h2
      subst h2
      rw [repoRead_state _ _ _ _ _ heq]
      rfl
    · rename_i robj st1 heq
      have hst1 := repoRead_state _ _ _ _ _ heq
      split at hrun
      · rename_i e st2 hequ
        injection hrun with h1 h2
        subst h2
        rw [repoUpdate_err_state _ _ _ _ _ _ hequ, hst1]
        rfl
      · rename_i u st2 hequ
        rw [ih st2 r hrun hrest, lookupRepo_update_other _ _ _ _ _ _ hne hequ, hst1]
        rfl

/-- C10: on a completed back-patch loop, every processed FileObject's
"result-of" reference equals the CreateAction identifier,
unconditionally - any pre-existing value is overwritten. -/
theorem backpatch_overwrites_resultOf
    (failAt : Nat → Bool) (dsId actId : Nat) (ids : List Nat)
    (st st' : CState) (id : Nat)
    (hnodup : ids.Nodup) (hid : id ∈ ids)
    (hrun : processBackpatch failAt dsId actId ids st = (.ok (), st')) :
    ∃ obj', lookupRepo st' id = some obj' ∧ obj'.resultOf = some actId := by
  induction ids generalizing st with
  | nil => cases hid
  | cons i rest ih =>
    unfold processBackpatch at hrun
    split at hrun
    · rename_i e st1 heq
      simp at hrun
    · rename_i robj st1 heq
      have hst1 := repoRead_state _ _ _ _ _ heq
      split at hrun
      · rename_i e st2 hequ
        simp at hrun
      · rename_i u st2 hequ
        rcases List.mem_cons.mp hid with hii | hirest
        · subst hii
          have hl2 : lookupRepo st2 id = some (backpatchObj dsId actId robj) := by
            have h1 := repoRead_ok_lookup _ _ _ _ _ heq
            rw [lookupRepo_update_self _ _ _ _ _ hequ, hst1]
            have hcalm : lookupRepo { st with calls := st.calls + 1 } id =
                lookupRepo st id := rfl
            rw [hcalm, h1]
            rfl
          have hfr := processBackpatch_lookup_frame _ _ _ _ _ _ _ id hrun
            (List.nodup_cons.mp hnodup).1
          refine ⟨backpatchObj dsId actId robj, ?_, backpatchObj_resultOf dsId actId robj⟩
          rw [hfr, hl2]
        · exact ih st2 (List.nodup_cons.mp hnodup).2 hirest hrun

/-- C8 witness: the concrete back-patch run leaves the already-linked
FileObject's "part-of" untouched. -/
theorem backpatch_preserves_existing_partOf_witness :
    ∃ obj', lookupRepo bpRun.2 0 = some obj' ∧ obj'.partOf = some (some [42]) :=
  backpatch_preserves_existing_partOf (fun _ => false) 7 9 [0, 1] bpState
    bpRun.1 bpRun.2 0 objLinked [42] rfl rfl rfl

/-- C10 witness: the concrete back-patch run overwrites the
pre-existing "result-of" value 5 of record 1 with the action id 9. -/
theorem backpatch_overwrites_resultOf_witness :
    ∃ obj', lookupRepo bpRun.2 1 = some obj' ∧ obj'.resultOf = some 9 :=
  backpatch_overwrites_resultOf (fun _ => false) 7 9 [0, 1] bpState
    bpRun.2 1 (by decide) (by decide) rfl

/-- C9: the Dataset properties built by the assembler carry no license
and no keywords for a workflow whose name does not start with `modgp-`,
even when the dedicated `argo-connector/license` and
`argo-connector/keywords` annotations written at submission are
present: the assembler never reads those annotations (the only
license/keywords it ever writes are the hardcoded `modgp` values). -/
theorem datasetProperties_ignores_license_keywords :
    annLookup (wflLicensed.metadataAnns.getD []) "argo-connector/license" =
      some "https://spdx.org/licenses/MIT" ∧
    annLookup (wflLicensed.metadataAnns.getD []) "argo-connector/keywords" =
      some "a,b" ∧
    ∃ props, datasetProperties wflLicensed cstEmpty 5 4 = .ok props ∧
      props.license = none ∧ props.keywords = none :=
  ⟨rfl, rfl, ⟨_, rfl, rfl, rfl⟩⟩

theorem repoCreate_cases (failAt : Nat → Bool) (ty : String) (obj : RecObj)
    (st : CState) (r : Except Err Nat) (st' : CState)
    (h : repoCreate failAt ty obj st = (r, st')) :
    (r = .error (.repoFault st.calls) ∧ st' = { st with calls := st.calls + 1 }) ∨
    (r = .ok st.nextId ∧ st' = { st with
        calls := st.calls + 1,
        repo := st.repo ++ [(st.nextId, { obj with otype := ty })],
        nextId := st.nextId + 1 }) := by
  unfold repoCreate at h
  split at h
  · left; injection h with h1 h2; exact ⟨h1.symm, h2.symm⟩
  · right; injection h with h1 h2; exact ⟨h1.symm, h2.symm⟩

theorem repoCreateTracked_cases (failAt : Nat → Bool) (ty : String) (obj : RecObj)
    (st : CState) (r : Except Err Nat) (st' : CState)
    (h : repoCreateTracked failAt ty obj st = (r, st')) :
    (r = .error (.repoFault st.calls) ∧ st' = { st with calls := st.calls + 1 }) ∨
    (r = .ok st.nextId ∧ st' = { st with
        calls := st.calls + 1,
        repo := st.repo ++ [(st.nextId, { obj with otype := ty })],
        nextId := st.nextId + 1,
        ledger := st.ledger ++ [(st.nextId, ty)] }) := by
  unfold repoCreateTracked at h
  split at h
  · rename_i e st1 heq
    injection h with h1 h2
    rcases repoCreate_cases _ _ _ _ _ _ heq with ⟨ha, hb⟩ | ⟨ha, hb⟩
    · left
      constructor
      · rw [← h1, ha]
      · rw [← h2, hb]
    · exact absurd ha (by simp)
  · rename_i id st1 heq
    injection h with h1 h2
    rcases repoCreate_cases _ _ _ _ _ _ heq with ⟨ha, hb⟩ | ⟨ha, hb⟩
    · exact absurd ha (by simp)
    · right
      have hid : id = st.nextId := Except.ok.inj ha
      constructor
      · rw [← h1, ha]
      · rw [← h2, hb, hid]
        rfl

theorem calls_only_inv (base : List (Nat × RecObj)) (st : CState)
    (hinv : AssemblyInv base st) :
    AssemblyInv base { st with calls := st.calls + 1 } :=
  ⟨hinv.decomp, hinv.nodup, hinv.fresh, hinv.bound, hinv.dlog⟩

theorem inv_base_lt (base : List (Nat × RecObj)) (st : CState)
    (hinv : AssemblyInv base st) :
    ∀ i ∈ base.map Prod.fst, i < st.nextId := by
  intro i hi
  obtain ⟨tail, htail, hmap⟩ := hinv.decomp
  apply hinv.bound
  rw [htail, List.map_append]
  exact List.mem_append_left _ hi

theorem inv_ledger_lt (base : List (Nat × RecObj)) (st : CState)
    (hinv : AssemblyInv base st) :
    ∀ i ∈ st.ledger.map Prod.fst, i < st.nextId := by
  intro i hi
  obtain ⟨tail, htail, hmap⟩ := hinv.decomp
  apply hinv.bound
  rw [htail, List.map_append]
  exact List.mem_append_right _ (hmap ▸ hi)

theorem repoCreateTracked_inv (failAt : Nat → Bool) (ty : String) (obj : RecObj)
    (base : List (Nat × RecObj)) (st : CState) (r : Except Err Nat) (st' : CState)
    (h : repoCreateTracked failAt ty obj st = (r, st'))
    (hinv : AssemblyInv base st) : AssemblyInv base st' := by
  rcases repoCreateTracked_cases _ _ _ _ _ _ h with ⟨-, hb⟩ | ⟨-, hb⟩
  · subst hb
    exact calls_only_inv base st hinv
  · subst hb
    obtain ⟨tail, htail, hmap⟩ := hinv.decomp
    refine ⟨⟨tail ++ [(st.nextId, { obj with otype := ty })], ?_, ?_⟩, ?_, ?_, ?_, hinv.dlog⟩
    · show st.repo ++ [(st.nextId, { obj with otype := ty })] = _
      rw [htail, List.append_assoc]
    · show _ = (st.ledger ++ [(st.nextId, ty)]).map Prod.fst
      simp only [List.map_append, List.map_cons, List.map_nil]
      rw [hmap]
    · show ((st.ledger ++ [(st.nextId, ty)]).map Prod.fst).Nodup
      rw [List.map_append]
      rw [List.nodup_append]
      refine ⟨hinv.nodup, by simp, ?_⟩
      intro a ha hb
      simp only [List.map_cons, List.map_nil, List.mem_singleton] at hb
      subst hb
      exact absurd (inv_ledger_lt base st hinv _ ha) (by simp)
    · show ∀ i ∈ (st.ledger ++ [(st.nextId, ty)]).map Prod.fst, i ∉ base.map Prod.fst
      intro i hi
      rw [List.map_append] at hi
      rcases List.mem_append.mp hi with hi | hi
      · exact hinv.fresh i hi
      · simp only [List.map_cons, List.map_nil, List.mem_singleton] at hi
        subst hi
        intro hmem
        exact absurd (inv_base_lt base st hinv _ hmem) (by simp)
    · show ∀ i ∈ (st.repo ++ [(st.nextId, { obj with otype := ty })]).map Prod.fst,
        i < st.nextId + 1
      intro i hi
      rw [List.map_append] at hi
      rcases List.mem_append.mp hi with hi | hi
      · exact Nat.lt_succ_of_lt (hinv.bound i hi)
      · simp only [List.map_cons, List.map_nil, List.mem_singleton] at hi
        subst hi
        exact Nat.lt_succ_self _

theorem map_fst_update (l : List (Nat × RecObj)) (id : Nat) (obj : RecObj) :
    (l.map (fun p => if p.1 == id then (id, obj) else p)).map Prod.fst =
      l.map Prod.fst := by
  rw [List.map_map]
  refine List.map_congr_left ?_
  intro p _
  by_cases hp : p.1 = id
  · simp [hp]
  · simp [hp]

theorem map_update_of_not_mem (l : List (Nat × RecObj)) (id : Nat) (obj : RecObj)
    (h : id ∉ l.map Prod.fst) :
    l.map (fun p => if p.1 == id then (id, obj) else p) = l := by
  induction l with
  | nil => rfl
  | cons p rest ih =>
    have hp : p.1 ≠ id := fun he => h (by simp [← he])
    simp only [List.map_cons]
    rw [ih (fun hm => h (by simp only [List.map_cons, List.mem_cons]; exact Or.inr hm))]
    have : (p.1 == id) = false := by simp [hp]
    rw [this]
    simp

theorem repoUpdate_inv (failAt : Nat → Bool) (id : Nat) (obj : RecObj)
    (base : List (Nat × RecObj)) (st : CState) (r : Except Err Unit) (st' : CState)
    (h : repoUpdate failAt id obj st = (r, st'))
    (hid : id ∉ base.map Prod.fst)
    (hinv : AssemblyInv base st) : AssemblyInv base st' := by
  unfold repoUpdate at h
  split at h
  · injection h with h1 h2
    subst h2
    exact calls_only_inv base st hinv
  · injection h with h1 h2
    subst h2
    obtain ⟨tail, htail, hmap⟩ := hinv.decomp
    refine ⟨⟨tail.map (fun p => if p.1 == id then (id, obj) else p), ?_, ?_⟩,
      hinv.nodup, hinv.fresh, ?_, hinv.dlog⟩
    · show st.repo.map (fun p => if p.1 == id then (id, obj) else p) = _
      rw [htail, List.map_append, map_update_of_not_mem base id obj hid]
    · rw [map_fst_update, hmap]
    · show ∀ i ∈ (st.repo.map (fun p => if p.1 == id then (id, obj) else p)).map Prod.fst,
        i < st.nextId
      rw [map_fst_update]
      exact hinv.bound

theorem processPersons_inv (failAt : Nat → Bool) (wflAnns : Option (List (String × String)))
    (anns : List (String × String)) (author : Option Nat)
    (base : List (Nat × RecObj)) (st : CState) (r : Except Err (Option Nat)) (st' : CState)
    (h : processPersons failAt wflAnns anns author st = (r, st'))
    (hinv : AssemblyInv base st) : AssemblyInv base st' := by
  induction anns generalizing st author r with
  | nil =>
    unfold processPersons at h
    injection h with h1 h2
    subst h2
    exact hinv
  | cons kv rest ih =>
    obtain ⟨key, val⟩ := kv
    unfold processPersons at h
    split at h
    · split at h
      · injection h with h1 h2
        subst h2
        exact hinv
      · split at h
        · injection h with h1 h2
          subst h2
          exact hinv
        · split at h
          · rename_i e st1 heq
            injection h with h1 h2
            subst h2
            exact repoCreateTracked_inv _ _ _ _ _ _ _ heq hinv
          · rename_i id st1 heq
            exact ih _ _ _ h (repoCreateTracked_inv _ _ _ _ _ _ _ heq hinv)
    · exact ih _ _ _ h hinv


theorem processFiles_inv (failAt : Nat → Bool) (maxSize : Nat)
    (stream : List StreamItem) (base : List (Nat × RecObj))
    (st : CState) (r : Except Err Unit) (st' : CState)
    (h : processFiles failAt maxSize stream st = (r, st'))
    (hinv : AssemblyInv base st) : AssemblyInv base st' := by
  induction stream generalizing st r with
  | nil =>
    unfold processFiles at h
    injection h with h1 h2
    subst h2
    exact hinv
  | cons item rest ih =>
    unfold processFiles at h
    split at h
    · injection h with h1 h2
      subst h2
      exact hinv
    · split at h
      · exact ih _ _ h hinv
      · split at h
        · rename_i e st1 heq
          injection h with h1 h2
          subst h2
          exact repoCreateTracked_inv _ _ _ _ _ _ _ heq hinv
        · rename_i id st1 heq
          exact ih _ _ h (repoCreateTracked_inv _ _ _ _ _ _ _ heq hinv)

theorem processParams_inv (failAt : Nat → Bool)
    (params : List ParamC) (base : List (Nat × RecObj))
    (st : CState) (r : Except Err Unit) (st' : CState)
    (h : processParams failAt params st = (r, st'))
    (hinv : AssemblyInv base st) : AssemblyInv base st' := by
  induction params generalizing st r with
  | nil =>
    unfold processParams at h
    injection h with h1 h2
    subst h2
    exact hinv
  | cons p rest ih =>
    unfold processParams at h
    split at h
    · rename_i e st1 heq
      injection h with h1 h2
      subst h2
      exact repoCreateTracked_inv _ _ _ _ _ _ _ heq hinv
    · rename_i id st1 heq
      have hinv1 := repoCreateTracked_inv _ _ _ _ _ _ _ heq hinv
      split at h
      · exact ih _ _ h hinv1
      · split at h
        · rename_i e st2 heq2
          injection h with h1 h2
          subst h2
          exact repoCreateTracked_inv _ _ _ _ _ _ _ heq2 hinv1
        · rename_i id2 st2 heq2
          exact ih _ _ h (repoCreateTracked_inv _ _ _ _ _ _ _ heq2 hinv1)

theorem ledgerIdsOfType_sub (st : CState) (ty : String) :
    ∀ i ∈ ledgerIdsOfType st ty, i ∈ st.ledger.map Prod.fst := by
  intro i hi
  unfold ledgerIdsOfType at hi
  simp only [List.mem_map] at hi ⊢
  obtain ⟨p, hp, hfst⟩ := hi
  exact ⟨p, List.mem_of_mem_filter hp, hfst⟩

theorem processBackpatch_inv (failAt : Nat → Bool) (dsId actId : Nat)
    (ids : List Nat) (base : List (Nat × RecObj))
    (st : CState) (r : Except Err Unit) (st' : CState)
    (h : processBackpatch failAt dsId actId ids st = (r, st'))
    (hids : ∀ i ∈ ids, i ∉ base.map Prod.fst)
    (hinv : AssemblyInv base st) : AssemblyInv base st' := by
  induction ids generalizing st r with
  | nil =>
    unfold processBackpatch at h
    injection h with h1 h2
    subst h2
    exact hinv
  | cons i rest ih =>
    unfold processBackpatch at h
    split at h
    · rename_i e st1 heq
      injection h with h1 h2
      subst h2
      rw [repoRead_state _ _ _ _ _ heq]
      exact calls_only_inv base st hinv
    · rename_i robj st1 heq
      have hst1 := repoRead_state _ _ _ _ _ heq
      subst hst1
      have hinv1 : AssemblyInv base { st with calls := st.calls + 1 } :=
        calls_only_inv base st hinv
      split at h
      · rename_i e st2 heq2
        injection h with h1 h2
        subst h2
        exact repoUpdate_inv _ _ _ _ _ _ _ heq2
          (hids i (List.mem_cons_self i rest)) hinv1
      · rename_i u st2 heq2
        exact ih _ _ h (fun j hj => hids j (List.mem_cons_of_mem i hj))
          (repoUpdate_inv _ _ _ _ _ _ _ heq2
            (hids i (List.mem_cons_self i rest)) hinv1)

theorem assemblyInv_init (st : CState)
    (hbound : ∀ i ∈ st.repo.map Prod.fst, i < st.nextId) :
    AssemblyInv st.repo { st with ledger := [], deleteLog := [] } :=
  ⟨⟨[], (List.append_nil _).symm, rfl⟩, List.nodup_nil, by simp, hbound, rfl⟩

theorem assembleBody_inv (failAt : Nat → Bool) (parseTime : String → Option Nat)
    (wfl : WflC) (recon : ReconWfl) (stream : List StreamItem) (maxSize : Nat)
    (base : List (Nat × RecObj)) (st : CState) (r : Except Err Nat) (st' : CState)
    (h : assembleBody failAt parseTime wfl recon stream maxSize st = (r, st'))
    (hinv : AssemblyInv base st) : AssemblyInv base st' := by
  unfold assembleBody at h
  split at h
  · injection h with h1 h2; subst h2; exact hinv
  · rename_i reconAnns hanns
    split at h
    · rename_i e st1 heq
      injection h with h1 h2; subst h2
      exact processPersons_inv _ _ _ _ _ _ _ _ heq hinv
    · rename_i author st1 heq
      have hinv1 := processPersons_inv _ _ _ _ base _ _ _ heq hinv
      split at h
      · rename_i e st2 heq2
        injection h with h1 h2; subst h2
        exact processFiles_inv _ _ _ _ _ _ _ heq2 hinv1
      · rename_i u2 st2 heq2
        have hinv2 := processFiles_inv _ _ _ base _ _ _ heq2 hinv1
        split at h
        · rename_i e st3 heq3
          injection h with h1 h2; subst h2
          exact processParams_inv _ _ _ _ _ _ heq3 hinv2
        · rename_i u3 st3 heq3
          have hinv3 := processParams_inv _ _ base _ _ _ heq3 hinv2
          split at h
          · rename_i e st4 heq4
            injection h with h1 h2; subst h2
            exact repoCreateTracked_inv _ _ _ _ _ _ _ heq4 hinv3
          · rename_i wflObjId st4 heq4
            have hinv4 := repoCreateTracked_inv _ _ _ base _ _ _ heq4 hinv3
            split at h
            · injection h with h1 h2; subst h2; exact hinv4
            · rename_i startT hstart
              split at h
              · rename_i e hend
                injection h with h1 h2; subst h2; exact hinv4
              · rename_i hend
                injection h with h1 h2; subst h2; exact hinv4
              · rename_i endT hend
                split at h
                · rename_i e st5 heq5
                  injection h with h1 h2; subst h2
                  exact repoCreateTracked_inv _ _ _ _ _ _ _ heq5 hinv4
                · rename_i actionId st5 heq5
                  have hinv5 := repoCreateTracked_inv _ _ _ base _ _ _ heq5 hinv4
                  split at h
                  · rename_i e hprops
                    injection h with h1 h2; subst h2; exact hinv5
                  · rename_i props hprops
                    split at h
                    · rename_i e st6 heq6
                      injection h with h1 h2; subst h2
                      exact repoCreateTracked_inv _ _ _ _ _ _ _ heq6 hinv5
                    · rename_i datasetId st6 heq6
                      have hinv6 := repoCreateTracked_inv _ _ _ base _ _ _ heq6 hinv5
                      have hids : ∀ i ∈ ledgerIdsOfType st6 "FileObject",
                          i ∉ base.map Prod.fst := fun i hi =>
                        hinv6.fresh i (ledgerIdsOfType_sub st6 "FileObject" i hi)
                      split at h
                      · rename_i e st7 heq7
                        injection h with h1 h2; subst h2
                        exact processBackpatch_inv _ _ _ _ base _ _ _ heq7 hids hinv6
                      · rename_i u7 st7 heq7
                        injection h with h1 h2; subst h2
                        exact processBackpatch_inv _ _ _ _ base _ _ _ heq7 hids hinv6

theorem cleanupLedger_spec (led : List (Nat × String)) (base tail : List (Nat × RecObj))
    (st : CState)
    (hrepo : st.repo = base ++ tail)
    (hids : tail.map Prod.fst = led.map Prod.fst)
    (hnodup : (led.map Prod.fst).Nodup)
    (hfresh : ∀ i ∈ led.map Prod.fst, i ∉ base.map Prod.fst) :
    (cleanupLedger led st).repo = base ∧
    (cleanupLedger led st).deleteLog = st.deleteLog ++ led.map Prod.fst ∧
    (cleanupLedger led st).ledger = st.ledger := by
  induction led generalizing tail st with
  | nil =>
    refine ⟨?_, by simp [cleanupLedger], rfl⟩
    have htn : tail = [] := List.map_eq_nil_iff.mp hids
    subst htn
    show st.repo = base
    rw [hrepo, List.append_nil]
  | cons p rest ih =>
    obtain ⟨id, ty⟩ := p
    cases tail with
    | nil => simp at hids
    | cons t0 tail' =>
      simp only [List.map_cons, List.cons.injEq] at hids
      obtain ⟨hid0, hids'⟩ := hids
      simp only [List.map_cons] at hnodup hfresh
      have hnd := List.nodup_cons.mp hnodup
      have hdel : (repoDelete id st).repo = base ++ tail' := by
        unfold repoDelete
        show (st.repo.filter fun p => p.1 != id) = base ++ tail'
        rw [hrepo, List.filter_append]
        have hbase : (base.filter fun p => p.1 != id) = base := by
          rw [List.filter_eq_self]
          intro p hp
          have : p.1 ∈ base.map Prod.fst := List.mem_map_of_mem Prod.fst hp
          have hne : p.1 ≠ id := fun he =>
            hfresh id (List.mem_cons_self _ _) (he ▸ this)
          simp [hne]
        have htail : ((t0 :: tail').filter fun p => p.1 != id) = tail' := by
          rw [List.filter_cons]
          have h0 : (t0.1 != id) = false := by simp [hid0]
          rw [h0]
          simp only [Bool.false_eq_true, if_false]
          rw [List.filter_eq_self]
          intro p hp
          have : p.1 ∈ tail'.map Prod.fst := List.mem_map_of_mem Prod.fst hp
          rw [hids'] at this
          have hne : p.1 ≠ id := fun he => hnd.1 (he ▸ this)
          simp [hne]
        rw [hbase, htail]
      have hIH := ih tail' (repoDelete id st) hdel hids' hnd.2
        (fun i hi => hfresh i (List.mem_cons_of_mem _ hi))
      refine ⟨?_, ?_, ?_⟩
      · show (cleanupLedger rest (repoDelete id st)).repo = base
        exact hIH.1
      · show (cleanupLedger rest (repoDelete id st)).deleteLog =
          st.deleteLog ++ id :: rest.map Prod.fst
        rw [hIH.2.1]
        show (st.deleteLog ++ [id]) ++ rest.map Prod.fst =
          st.deleteLog ++ id :: rest.map Prod.fst
        rw [List.append_assoc]
        rfl
      · show (cleanupLedger rest (repoDelete id st)).ledger = st.ledger
        rw [hIH.2.2]
        rfl

/-- C1: whenever an assembly run raises (at any step, modelled by the
repository fault oracle and by every input-induced exception source),
the handler deletes from the repository exactly the identifiers in the
creation ledger at the time of failure - each exactly once, in creation
order - re-raises the same exception, and restores the repository to
its pre-run contents, so no partial graph (in particular no Dataset
without its parts) is left behind.  The hypothesis on `st` states that
the repository's pre-existing identifiers lie below the fresh-identifier
counter, which is how the model renders repository-assigned identifiers
being fresh. -/
theorem create_dataset_rollback (failAt : Nat → Bool)
    (parseTime : String → Option Nat) (wfl : WflC) (recon : ReconWfl)
    (stream : List StreamItem) (maxSize : Nat) (st : CState) (e : Err)
    (st' : CState)
    (hbound : ∀ i ∈ st.repo.map Prod.fst, i < st.nextId)
    (hrun : create_dataset_from_workflow_artifacts failAt parseTime wfl recon
      stream maxSize st = (.error e, st')) :
    st'.deleteLog = st'.ledger.map Prod.fst ∧
    (st'.ledger.map Prod.fst).Nodup ∧
    st'.repo = st.repo := by
  unfold create_dataset_from_workflow_artifacts at hrun
  split at hrun
  · simp at hrun
  · rename_i e0 stB heq
    injection hrun with h1 h2
    have hinv := assembleBody_inv _ _ _ _ _ _ st.repo _ _ _ heq
      (assemblyInv_init st hbound)
    obtain ⟨tail, htail, hmap⟩ := hinv.decomp
    have hclean := cleanupLedger_spec stB.ledger st.repo tail stB htail hmap
      hinv.nodup hinv.fresh
    subst h2
    refine ⟨?_, ?_, hclean.1⟩
    · rw [hclean.2.1, hinv.dlog, hclean.2.2]
      rfl
    · rw [hclean.2.2]
      exact hinv.nodup

set_option maxRecDepth 8192 in
/-- C1 witness: a concrete run in which one Person and one FileObject
are created before the third repository call (the Workflow create)
raises; the handler deletes both ledger records exactly once and the
repository returns to its initial (empty) contents. -/
theorem create_dataset_rollback_witness :
    wRollbackRun.2.deleteLog = wRollbackRun.2.ledger.map Prod.fst ∧
    (wRollbackRun.2.ledger.map Prod.fst).Nodup ∧
    wRollbackRun.2.repo = cstEmpty.repo :=
  create_dataset_rollback wFailAt wParseTime wWfl wRecon
    [{ fileName := "out/data.csv", content := .ok 10 }] 100 cstEmpty
    (.repoFault 2) wRollbackRun.2
    (by intro i hi; simp [cstEmpty] at hi) rfl

end ArgoConnector
